import Mathlib

/-!
# Verification of the mless line-addressable data pipeline

A shallow embedding, in Lean 4, of the core of `mless` (an interactive
terminal pager for large log files): the line offset index
(`internal/index/lines.go`), the byte source (`internal/io/mmap.go`),
the file source and filtered provider (`internal/source`), the slicer
(`internal/slice`), the range-expression parser (`internal/ui/pane.go`),
the ANSI-aware horizontal scroll (`internal/view/viewport.go`) and the
level detector (`cmd/mless/main.go`).

Files are modelled as `List Nat` (one `Nat` per byte); Go byte slices
that may be `nil` are modelled as `Option (List Nat)` with `none` for
the `nil` slice.  Go's 64 KiB chunked `ReadAt` scan enumerates newline
positions in strictly increasing order across chunk boundaries; it is
modelled as the equivalent single left-to-right scan with an absolute
position counter.  I/O errors cannot occur in the pure model, so error
returns appear only where the Go code creates them itself.
-/

namespace MLess

/-- A file's bytes.  Byte values are `Nat`s (`10` = LF, `13` = CR). -/
abbrev ByteFile := List Nat

/-! ## Line index (`internal/index/lines.go`) -/

/-- The newline scan loop of `BuildLineIndex` / `AppendNewLines`:
for each byte `10` at absolute position `p`, emit `p + 1` iff
`p + 1 < size`. -/
def scanNewlines : ByteFile → Nat → Nat → List Nat
  | [], _, _ => []
  | b :: rest, pos, size =>
      if b = 10 ∧ pos + 1 < size then
        (pos + 1) :: scanNewlines rest (pos + 1) size
      else
        scanNewlines rest (pos + 1) size

/-- `BuildLineIndex`: for an empty file the offset array is `[0]`;
otherwise it is `0` followed by the scanned newline starts. -/
def buildLineIndex (file : ByteFile) : List Nat :=
  if file.length = 0 then [0]
  else 0 :: scanNewlines file 0 file.length

/-- `LineIndex.AppendNewLines(oldSize)`: if the file did not grow,
do nothing; otherwise, if `oldSize > 0` and the byte at `oldSize - 1`
is `\n`, append `oldSize` as a new line start (if `oldSize = 0` and the
offset array is empty, append `0`); then scan from `oldSize` to the new
size. -/
def appendNewLines (file : ByteFile) (offsets : List Nat) (oldSize : Nat) : List Nat :=
  let size := file.length
  if size ≤ oldSize then offsets
  else
    let offs1 :=
      if 0 < oldSize then
        if file.getD (oldSize - 1) 0 = 10 then offsets ++ [oldSize] else offsets
      else if offsets.length = 0 then offsets ++ [0]
      else offsets
    offs1 ++ scanNewlines (file.drop oldSize) oldSize size

/-- `LineIndex.LineCount`. -/
def lineCount (offsets : List Nat) : Nat := offsets.length

/-! ## Byte source (`internal/io/mmap.go`) -/

/-- `MappedFile.ReadRange(start, end)`: clamp `end` to the size, return
the `nil` slice (`none`) if `start ≥ end`, else the bytes
`[start, end)`. -/
def readRange (file : ByteFile) (start stop : Nat) : Option ByteFile :=
  let stop' := min stop file.length
  if start ≥ stop' then none
  else some ((file.drop start).take (stop' - start))

/-- Go's `bytes.TrimRight(content, "\r\n")`: remove every trailing byte
that is CR (`13`) or LF (`10`). -/
def trimRightCRLF (l : ByteFile) : ByteFile :=
  (l.reverse.dropWhile (fun b => b = 13 ∨ b = 10)).reverse

/-- `LineIndex.GetLine(lineNum)`: out of range returns the `nil` slice;
otherwise slice `[offset[i], offset[i+1])` (or `[offset[i], size)` for
the last line) through `ReadRange` and trim trailing CR/LF.  `none`
models Go's `nil` byte slice (returned with a `nil` error). -/
def lineIndexGetLine (file : ByteFile) (offsets : List Nat) (lineNum : Nat) :
    Option ByteFile :=
  if lineNum < offsets.length then
    let start := offsets.getD lineNum 0
    let stop :=
      if lineNum + 1 < offsets.length then offsets.getD (lineNum + 1) 0
      else file.length
    (readRange file start stop).map trimRightCRLF
  else none

/-- Length of a Go byte slice (`nil` has length 0). -/
def goLen : Option ByteFile → Nat
  | none => 0
  | some l => l.length

/-- The line-index invariant of the spec: offsets strictly increasing
and every offset less than the file size. -/
def InvariantHolds (offsets : List Nat) (size : Nat) : Prop :=
  offsets.Pairwise (· < ·) ∧ ∀ o ∈ offsets, o < size

instance (offsets : List Nat) (size : Nat) : Decidable (InvariantHolds offsets size) :=
  inferInstanceAs (Decidable (_ ∧ _))

/-- The raw bytes of line `i`: `[offset[i], offset[i+1])`, or
`[offset[i], size)` for the last line. -/
def rawLineSlice (file : ByteFile) (offsets : List Nat) (i : Nat) : ByteFile :=
  let start := offsets.getD i 0
  let stop :=
    if i + 1 < offsets.length then offsets.getD (i + 1) 0 else file.length
  (file.drop start).take (stop - start)

/-- Modelled from the spec's words: strip a single trailing `\r?\n`
(one optional CR followed by one LF) and nothing more. -/
def stripOneCRLF (l : ByteFile) : ByteFile :=
  match l.reverse with
  | 10 :: 13 :: rest => rest.reverse
  | 10 :: rest => rest.reverse
  | _ => l

/-! ## Lazy timestamp cache (`LineIndex.GetTimestamp`)

State is the parallel `timestamps` array (`none` = Go's `nil` pointer).
The result triple is `(returned value, new timestamps array, number of
parser invocations during this call)`. -/

/-- `LineIndex.GetTimestamp(lineNum)`: out of range returns `nil`;
the array is padded with `nil` up to `LineCount()`; a non-`nil` cached
entry is returned without parsing; otherwise the line's content is
parsed (one parser invocation) and the result — even a `nil` result —
is stored back into the array. -/
def getTimestamp (parse : ByteFile → Option Nat) (file : ByteFile)
    (offsets : List Nat) (timestamps : List (Option Nat)) (lineNum : Nat) :
    Option Nat × List (Option Nat) × Nat :=
  if lineNum < offsets.length then
    let ts := timestamps ++ List.replicate (offsets.length - timestamps.length) none
    match ts.getD lineNum none with
    | some t => (some t, ts, 0)
    | none =>
        match lineIndexGetLine file offsets lineNum with
        | none => (none, ts, 0)
        | some content =>
            let r := parse content
            (r, ts.set lineNum r, 1)
  else (none, timestamps, 0)

/-! ## Log levels and the filtered provider (`internal/source`) -/

/-- `LogLevel`, ordered `Unknown < Trace < Debug < Info < Warn < Error
< Fatal` as in `internal/source/provider.go`. -/
inductive LogLevel
  | unknown
  | trace
  | debug
  | info
  | warn
  | error
  | fatal
deriving DecidableEq

/-- The integer value of a `LogLevel` constant. -/
def LogLevel.toNat : LogLevel → Nat
  | .unknown => 0
  | .trace => 1
  | .debug => 2
  | .info => 3
  | .warn => 4
  | .error => 5
  | .fatal => 6

/-- One pass of the rebuild loop's filter, for a line's content.  The
underlying `FileSource` always yields `Level = Unknown`, so the level
check always consults the detector.  A line passes iff the text filter
is unset or is a contiguous substring of the content, and the level
filter is empty or holds the detected level. -/
def passesFilter (detector : ByteFile → LogLevel) (levelFilter : List LogLevel)
    (textFilter : ByteFile) (content : ByteFile) : Bool :=
  (textFilter.length = 0 || decide (textFilter <:+: content))
    && (levelFilter.length = 0 || levelFilter.contains (detector content))

/-- `FilteredProvider.rebuildIndex` with active filters: the original
indices of the source lines that pass both filters, in order.  The
source is modelled as the list of its line contents. -/
def rebuildIndex (lines : List ByteFile) (detector : ByteFile → LogLevel)
    (levelFilter : List LogLevel) (textFilter : ByteFile) : List Nat :=
  (List.range lines.length).filter
    (fun i => passesFilter detector levelFilter textFilter (lines.getD i []))

/-- `FilteredProvider.OriginalLineNumber(filteredIndex)`: the code
short-circuits to the identity when `len(f.levelFilter) == 0` — note:
it does not consult the text filter — else looks up
`filteredIndices[filteredIndex]`, with `-1` out of range. -/
def originalLineNumber (lines : List ByteFile) (detector : ByteFile → LogLevel)
    (levelFilter : List LogLevel) (textFilter : ByteFile)
    (filteredIndex : Int) : Int :=
  if levelFilter.length = 0 then filteredIndex
  else
    let fi := rebuildIndex lines detector levelFilter textFilter
    if filteredIndex < 0 ∨ filteredIndex ≥ (fi.length : Int) then -1
    else (fi.getD filteredIndex.toNat 0 : Int)

/-- `FilteredProvider.GetLine(index)`: with both filters empty delegate
to the source; otherwise look the index up in `filteredIndices` and
return the source line's content together with the original index
stored on the returned `Line`. -/
def fpGetLine (lines : List ByteFile) (detector : ByteFile → LogLevel)
    (levelFilter : List LogLevel) (textFilter : ByteFile) (index : Nat) :
    Option (ByteFile × Nat) :=
  if levelFilter.length = 0 ∧ textFilter.length = 0 then
    if index < lines.length then some (lines.getD index [], index) else none
  else
    let fi := rebuildIndex lines detector levelFilter textFilter
    if index < fi.length then
      let oi := fi.getD index 0
      some (lines.getD oi [], oi)
    else none

/-! ## File source and slicer (`internal/source/provider.go`,
`internal/slice`) -/

/-- `FileSource.GetLine(idx)` for the file-backed source: the line
index is built by `BuildLineIndex`; a `nil` content (empty file, or
out of range) yields no `Line`. -/
def fsGetLine (file : ByteFile) (i : Nat) : Option ByteFile :=
  lineIndexGetLine file (buildLineIndex file) i

/-- The slice cache file name `mless-slice-{start}-{end}-{basename}`. -/
def cacheName (startLine endLine : Int) (base : String) : String :=
  "mless-slice-" ++ toString startLine ++ "-" ++ toString endLine ++ "-" ++ base

/-- The bytes `Slicer.SliceRange` writes for the clamped range
`[s, e)`: each line's content followed by `\n`, except that a `nil`
line (the placeholder line of an empty file) is skipped entirely. -/
def sliceOutput (file : ByteFile) (s e : Nat) : ByteFile :=
  ((List.range (e - s)).map (fun k =>
    match fsGetLine file (s + k) with
    | none => []
    | some c => c ++ [10])).flatten

/-- Modelled from the spec's words: the cache contains the lines
`[s, e)` verbatim, each terminated by `\n` (a line's content being what
`get_line` returns, the empty content for the empty file's line). -/
def sliceSpecOutput (file : ByteFile) (s e : Nat) : ByteFile :=
  ((List.range (e - s)).map (fun k => ((fsGetLine file (s + k)).getD []) ++ [10])).flatten

/-- The slicer's clamp of `startLine`: below by `0`. -/
def clampStart (s : Int) : Int := if s < 0 then 0 else s

/-- The slicer's clamp of `endLine`: above by the line count. -/
def clampEnd (e count : Int) : Int := if e > count then count else e

/-- `Slicer.SliceRange(src, startLine, endLine)`: clamp `startLine`
below by `0` and `endLine` above by `src.LineCount()`; error (`none`,
and no cache file is created) iff the clamped `startLine ≥ endLine`;
otherwise return the clamped bounds, the cache file name and the bytes
written. -/
def sliceRange (file : ByteFile) (base : String) (startLine endLine : Int) :
    Option (Int × Int × String × ByteFile) :=
  let count : Int := (buildLineIndex file).length
  let s := clampStart startLine
  let e := clampEnd endLine count
  if s ≥ e then none
  else some (s, e, cacheName s e base, sliceOutput file s.toNat e.toNat)

/-! ## Range-expression parser (`internal/ui/pane.go`)

Expressions are byte strings (`36` = `$`, `46` = `.`, `45` = `-`,
`39` = `'`, `58` = `:`, `43` = `+`, digits `48`–`57`).  The marks map
and the time lookup (`parseTimeInput` + `FindLineAtTime`) are oracle
parameters. -/

/-- One byte of Go's ASCII whitespace set, as trimmed by
`strings.TrimSpace` on the inputs at hand. -/
def isSpaceByte (b : Nat) : Bool :=
  b = 32 ∨ b = 9 ∨ b = 10 ∨ b = 13 ∨ b = 11 ∨ b = 12

/-- `strings.TrimSpace`. -/
def trimSpace (s : List Nat) : List Nat :=
  ((s.dropWhile isSpaceByte).reverse.dropWhile isSpaceByte).reverse

/-- A decimal digit? -/
def isDigitByte (b : Nat) : Bool := 48 ≤ b ∧ b ≤ 57

/-- The digits-to-number accumulator for `fmt.Sscanf("%d")`. -/
def digitsVal (l : List Nat) : Nat := l.foldl (fun acc b => acc * 10 + (b - 48)) 0

/-- `fmt.Sscanf(s, "%d", &n)`: an optional sign followed by at least
one digit parses to `some n`; otherwise the scan fails and the target
keeps its previous value. -/
def parseIntPrefix (s : List Nat) : Option Int :=
  match s with
  | 45 :: rest =>
      let ds := rest.takeWhile isDigitByte
      if ds.length = 0 then none else some (-(digitsVal ds : Int))
  | 43 :: rest =>
      let ds := rest.takeWhile isDigitByte
      if ds.length = 0 then none else some (digitsVal ds : Int)
  | _ =>
      let ds := s.takeWhile isDigitByte
      if ds.length = 0 then none else some (digitsVal ds : Int)

/-- `Sscanf` into a variable initialised to `0`: a failed scan leaves
`0`. -/
def sscanfIntD (s : List Nat) : Int := (parseIntPrefix s).getD 0

/-- `Pane.parseLineRef(ref, current, total)`.  `marks` maps a mark
character to its line, `timeLookup` models `parseTimeInput` composed
with nothing (`none` = unparseable time); a parsed time is then
resolved through `findAtTime` (`FindLineAtTime`, `-1` = not found). -/
def parseLineRef (marks : Nat → Option Int) (timeLookup : List Nat → Option Int)
    (ref : List Nat) (current total : Int) : Int :=
  let ref := trimSpace ref
  if ref = [] then 0
  else if ref = [46] then current
  else if ref = [36] then total
  else if ref.headD 0 = 39 ∧ 2 ≤ ref.length then
    let c := ref.getD 1 0
    if 97 ≤ c ∧ c ≤ 122 then
      match marks c with
      | some line => line
      | none => -1
    else -1
  else if ref.contains 58 ∧ ref.headD 0 ≠ 36 ∧ ref.headD 0 ≠ 46 then
    match timeLookup ref with
    | some line => if 0 ≤ line then line else -1
    | none => -1
  else if ref.headD 0 = 36 then total + sscanfIntD (ref.drop 1)
  else if ref.headD 0 = 46 then current + sscanfIntD (ref.drop 1)
  else sscanfIntD ref - 1

/-- The separator scan of `Pane.ParseAndSlice`: the first `-` whose
left neighbour is not `$` or `.` (a `-` at position 0 qualifies).
`prev` is the byte before the current one, `i` the current index. -/
def findDashAux (prev : Option Nat) : List Nat → Nat → Option Nat
  | [], _ => none
  | c :: rest, i =>
      if c = 45 ∧ ¬ (prev = some 36 ∨ prev = some 46) then some i
      else findDashAux (some c) rest (i + 1)

/-- The separator index of a range expression, if any. -/
def findDash (s : List Nat) : Option Nat := findDashAux none s 0

/-- Splitting of the range expression: at the separator when one
exists, else the whole string with `end := "$"`. -/
def splitRange (s : List Nat) : List Nat × List Nat :=
  match findDash s with
  | some d => (s.take d, s.drop (d + 1))
  | none => (s, [36])

/-- `Pane.ParseAndSlice(rangeStr)` up to the `(start, end)` pair handed
to `PerformSlice`: split, resolve both atoms, clamp `start` below by
`0` and `end` above by `total`. -/
def parseAndSlice (marks : Nat → Option Int) (timeLookup : List Nat → Option Int)
    (rangeStr : List Nat) (current total : Int) : Int × Int :=
  let p := splitRange rangeStr
  let start := parseLineRef marks timeLookup p.1 current total
  let stop := parseLineRef marks timeLookup p.2 current total
  (if start < 0 then 0 else start, if stop > total then total else stop)

/-- The spec-side separator condition at index `i` of `s`: a `-` whose
left neighbour is not `$` or `.`. -/
def dashSepAt (s : List Nat) (i : Nat) : Bool :=
  s.getD i 0 = 45 ∧ ¬ (0 < i ∧ (s.getD (i - 1) 0 = 36 ∨ s.getD (i - 1) 0 = 46))

/-! ## Viewport (`internal/view/viewport.go`) -/

/-- An ASCII letter terminates an ANSI escape sequence. -/
def isAlphaRune (r : Nat) : Bool :=
  (97 ≤ r ∧ r ≤ 122) ∨ (65 ≤ r ∧ r ≤ 90)

/-- The first loop of `applyHorizontalScroll`: pass every escape byte
through, drop the first `skip` visible bytes, keep the rest.  `inE` is
the `inEscape` flag. -/
def skipPhase : List Nat → Nat → Bool → List Nat
  | [], _, _ => []
  | r :: rest, skip, inE =>
      if r = 27 then r :: skipPhase rest skip true
      else if inE then r :: skipPhase rest skip (if isAlphaRune r then false else true)
      else if 0 < skip then skipPhase rest (skip - 1) false
      else r :: skipPhase rest 0 false

/-- The second loop of `applyHorizontalScroll`: pass escape bytes
through, emit visible bytes while `visWidth < width`, break at the
first visible byte beyond. -/
def truncPhase : List Nat → Nat → Nat → Bool → List Nat
  | [], _, _, _ => []
  | r :: rest, width, visWidth, inE =>
      if r = 27 then r :: truncPhase rest width visWidth true
      else if inE then r :: truncPhase rest width visWidth (if isAlphaRune r then false else true)
      else if width ≤ visWidth then []
      else r :: truncPhase rest width (visWidth + 1) false

/-- `Viewport.applyHorizontalScroll(content, width)` for a horizontal
offset `hOff`: empty for a non-positive width; otherwise skip, truncate
and append the `\x1b[0m` reset. -/
def applyHorizontalScroll (hOff width : Nat) (content : List Nat) : List Nat :=
  if width = 0 then []
  else truncPhase (skipPhase content hOff false) width 0 false ++ [27, 91, 48, 109]

/-- The visible (non-escape) bytes of a string, starting in escape
state `inE`. -/
def stripEsc : List Nat → Bool → List Nat
  | [], _ => []
  | r :: rest, inE =>
      if r = 27 then stripEsc rest true
      else if inE then stripEsc rest (if isAlphaRune r then false else true)
      else r :: stripEsc rest false

/-- The escape bytes of a string (the complement of `stripEsc`),
starting in escape state `inE`. -/
def escProj : List Nat → Bool → List Nat
  | [], _ => []
  | r :: rest, inE =>
      if r = 27 then r :: escProj rest true
      else if inE then r :: escProj rest (if isAlphaRune r then false else true)
      else escProj rest false

/-- The escape state after scanning a string from state `inE`. -/
def escState : List Nat → Bool → Bool
  | [], inE => inE
  | r :: rest, inE =>
      if r = 27 then escState rest true
      else if inE then escState rest (if isAlphaRune r then false else true)
      else escState rest false

/-- `Viewport.GotoBottom` followed by `clampScroll`: the bottom scroll
offset for a line count and height. -/
def gotoBottomOffset (count height : Nat) : Nat := count - height

/-- `Pane.CheckForNewLines`: refresh the source (append new lines from
the old size), and report whether the viewport was moved to the bottom
(`newLines > 0`). -/
def checkForNewLines (newFile : ByteFile) (offsets : List Nat) (oldSize : Nat) :
    List Nat × Bool :=
  let offs := appendNewLines newFile offsets oldSize
  (offs, decide (offsets.length < offs.length))

/-! ## Level detector (`cmd/mless/main.go`) -/

/-- The level patterns of `LevelDetector` (one list per level, from the
configuration). -/
structure LevelPatterns where
  tracePatterns : List ByteFile
  debugPatterns : List ByteFile
  infoPatterns : List ByteFile
  warnPatterns : List ByteFile
  errorPatterns : List ByteFile
  fatalPatterns : List ByteFile

/-- The pattern list for a level (the `patterns` map; absent levels,
such as `Unknown`, give the empty list). -/
def LevelPatterns.get (p : LevelPatterns) : LogLevel → List ByteFile
  | .trace => p.tracePatterns
  | .debug => p.debugPatterns
  | .info => p.infoPatterns
  | .warn => p.warnPatterns
  | .error => p.errorPatterns
  | .fatal => p.fatalPatterns
  | .unknown => []

/-- Go's `unicode.IsLetter` on a single byte converted to a rune
(Latin-1 code points `0`–`255`). -/
def isLetterByte (b : Nat) : Bool :=
  (65 ≤ b ∧ b ≤ 90) ∨ (97 ≤ b ∧ b ≤ 122) ∨ b = 170 ∨ b = 181 ∨ b = 186
    ∨ (192 ≤ b ∧ b ≤ 214) ∨ (216 ≤ b ∧ b ≤ 246) ∨ (248 ≤ b ∧ b ≤ 255)

/-- The boundary class of `matchPattern`: letter, digit or `_`. -/
def isWordByte (b : Nat) : Bool :=
  isLetterByte b ∨ isDigitByte b ∨ b = 95

/-- `strings.Index(text, pattern)`: the byte index of the first
occurrence, `none` when absent. -/
def goIndexAux (pat : List Nat) : List Nat → Nat → Option Nat
  | t, i =>
      if pat.isPrefixOf t then some i
      else
        match t with
        | [] => none
        | _ :: rest => goIndexAux pat rest (i + 1)

/-- First-occurrence index of `pat` in `text`. -/
def goIndex (text pat : List Nat) : Option Nat := goIndexAux pat text 0

/-- Is the pattern bracketed (`strings.HasPrefix "["` and
`strings.HasSuffix "]"`)? -/
def isBracketed (pat : List Nat) : Bool :=
  pat.headD 0 = 91 ∧ pat.getLastD 0 = 93 ∧ pat ≠ []

/-- The word-boundary test of `matchPattern` at occurrence index
`idx`: the byte before (if any) and the byte after (if any) must not be
a letter, digit or underscore. -/
def boundaryOk (text pat : List Nat) (idx : Nat) : Bool :=
  (idx = 0 ∨ ¬ isWordByte (text.getD (idx - 1) 0))
    ∧ (text.length ≤ idx + pat.length ∨ ¬ isWordByte (text.getD (idx + pat.length) 0))

/-- `matchPattern(text, pattern)`: bracketed patterns match anywhere as
substrings; bare patterns match iff the first occurrence passes the
word-boundary test. -/
def matchPattern (text pat : List Nat) : Bool :=
  if isBracketed pat then decide (pat <:+: text)
  else
    match goIndex text pat with
    | none => false
    | some idx => boundaryOk text pat idx

/-- `LevelDetector.matchLevel(prefix, level)`: some pattern of that
level matches. -/
def matchLevel (pats : LevelPatterns) (text : List Nat) (level : LogLevel) : Bool :=
  (pats.get level).any (fun p => matchPattern text p)

/-- `LevelDetector.Detect(content)`: truncate to the first 150 bytes
and test the levels from `Fatal` down to `Trace`. -/
def detect (pats : LevelPatterns) (content : ByteFile) : LogLevel :=
  let pre := content.take 150
  if matchLevel pats pre .fatal then .fatal
  else if matchLevel pats pre .error then .error
  else if matchLevel pats pre .warn then .warn
  else if matchLevel pats pre .info then .info
  else if matchLevel pats pre .debug then .debug
  else if matchLevel pats pre .trace then .trace
  else .unknown

/-- Modelled from the spec's words (the claim's reading): a bare
pattern matches when SOME occurrence in the prefix has proper word
boundaries. -/
def matchPatternSpec (text pat : List Nat) : Bool :=
  if isBracketed pat then decide (pat <:+: text)
  else
    (List.range (text.length + 1)).any (fun i =>
      pat.isPrefixOf (text.drop i) && boundaryOk text pat i)

/-- Modelled from the spec's words: `matchLevel` under the
some-occurrence reading of bare patterns. -/
def matchLevelSpec (pats : LevelPatterns) (text : List Nat) (level : LogLevel) : Bool :=
  (pats.get level).any (fun p => matchPatternSpec text p)

/-- Modelled from the spec's words: the detector under the
some-occurrence reading of bare patterns. -/
def detectSpec (pats : LevelPatterns) (content : ByteFile) : LogLevel :=
  let pre := content.take 150
  if matchLevelSpec pats pre .fatal then .fatal
  else if matchLevelSpec pats pre .error then .error
  else if matchLevelSpec pats pre .warn then .warn
  else if matchLevelSpec pats pre .info then .info
  else if matchLevelSpec pats pre .debug then .debug
  else if matchLevelSpec pats pre .trace then .trace
  else .unknown

/-! ## Helper lemmas on the line index -/

theorem scanNewlines_mem {l : ByteFile} {pos size x : Nat}
    (h : x ∈ scanNewlines l pos size) : pos < x ∧ x < size := by
  induction l generalizing pos with
  | nil => simp [scanNewlines] at h
  | cons b rest ih =>
    simp only [scanNewlines] at h
    split at h
    · rename_i hc
      rcases List.mem_cons.1 h with rfl | h'
      · omega
      · have := ih h'
        omega
    · have := ih h
      omega

theorem scanNewlines_pairwise (l : ByteFile) (pos size : Nat) :
    (scanNewlines l pos size).Pairwise (· < ·) := by
  induction l generalizing pos with
  | nil => simp [scanNewlines]
  | cons b rest ih =>
    simp only [scanNewlines]
    split
    · exact List.Pairwise.cons (fun y hy => (scanNewlines_mem hy).1) (ih _)
    · exact ih _

theorem buildLineIndex_invariant (file : ByteFile) (hne : file ≠ []) :
    InvariantHolds (buildLineIndex file) file.length := by
  have hlen : 0 < file.length := List.length_pos.2 hne
  unfold buildLineIndex
  rw [if_neg (by omega)]
  constructor
  · exact List.Pairwise.cons (fun y hy => (scanNewlines_mem hy).1)
      (scanNewlines_pairwise _ _ _)
  · intro o ho
    rcases List.mem_cons.1 ho with rfl | ho'
    · exact hlen
    · exact (scanNewlines_mem ho').2

theorem appendNewLines_invariant (file : ByteFile) (offsets : List Nat)
    (oldSize : Nat) (hgrow : oldSize < file.length)
    (hpre : InvariantHolds offsets oldSize ∨ (oldSize = 0 ∧ offsets = [0])) :
    InvariantHolds (appendNewLines file offsets oldSize) file.length
    ∧ (0 < oldSize → oldSize ∉ offsets →
        oldSize ∈ appendNewLines file offsets oldSize →
        file.getD (oldSize - 1) 0 = 10) := by
  unfold appendNewLines
  rw [if_neg (by omega)]
  have hscan_mem : ∀ x ∈ scanNewlines (file.drop oldSize) oldSize file.length,
      oldSize < x ∧ x < file.length := fun x hx => scanNewlines_mem hx
  have hscan_pw : (scanNewlines (file.drop oldSize) oldSize file.length).Pairwise (· < ·) :=
    scanNewlines_pairwise _ _ _
  rcases hpre with ⟨hpw, hlt⟩ | ⟨hz, hone⟩
  · by_cases hpos : 0 < oldSize
    · simp only [if_pos hpos]
      by_cases hnl : file.getD (oldSize - 1) 0 = 10
      · simp only [if_pos hnl]
        refine ⟨⟨?_, ?_⟩, fun _ _ _ => hnl⟩
        · rw [List.append_assoc]
          refine List.pairwise_append.2 ⟨hpw, ?_, ?_⟩
          · refine List.pairwise_append.2 ⟨List.pairwise_singleton _ _, hscan_pw, ?_⟩
            intro x hx y hy
            rcases List.mem_singleton.1 hx with rfl
            exact (hscan_mem y hy).1
          · intro x hx y hy
            have hxlt := hlt x hx
            rcases List.mem_append.1 hy with hy' | hy'
            · rcases List.mem_singleton.1 hy' with rfl
              omega
            · have := (hscan_mem y hy').1
              omega
        · intro o ho
          rcases List.mem_append.1 ho with ho' | ho'
          · rcases List.mem_append.1 ho' with h1 | h1
            · have := hlt o h1
              omega
            · rcases List.mem_singleton.1 h1 with rfl
              omega
          · exact (hscan_mem o ho').2
      · simp only [if_neg hnl]
        refine ⟨⟨?_, ?_⟩, fun _ hnot hmem => ?_⟩
        · refine List.pairwise_append.2 ⟨hpw, hscan_pw, ?_⟩
          intro x hx y hy
          have := hlt x hx
          have := (hscan_mem y hy).1
          omega
        · intro o ho
          rcases List.mem_append.1 ho with ho' | ho'
          · have := hlt o ho'
            omega
          · exact (hscan_mem o ho').2
        · rcases List.mem_append.1 hmem with h1 | h1
          · exact absurd h1 hnot
          · have := (hscan_mem _ h1).1
            omega
    · have hz : oldSize = 0 := by omega
      subst hz
      have hnil : offsets = [] := by
        cases offsets with
        | nil => rfl
        | cons a l => exact absurd (hlt a (List.mem_cons_self a l)) (by omega)
      subst hnil
      simp only [if_neg (by omega : ¬ (0:Nat) < 0), List.length_nil, if_pos rfl,
        List.nil_append]
      refine ⟨⟨?_, ?_⟩, fun h0 => absurd h0 (by omega)⟩
      · exact List.Pairwise.cons (fun y hy => (hscan_mem y hy).1) hscan_pw
      · intro o ho
        rcases List.mem_cons.1 ho with rfl | ho'
        · omega
        · exact (hscan_mem o ho').2
  · subst hz
    subst hone
    simp only [if_neg (by omega : ¬ (0:Nat) < 0), List.length_cons, List.length_nil]
    rw [if_neg (by omega)]
    refine ⟨⟨?_, ?_⟩, fun h0 => absurd h0 (by omega)⟩
    · refine List.pairwise_append.2 ⟨List.pairwise_singleton _ _, hscan_pw, ?_⟩
      intro x hx y hy
      rcases List.mem_singleton.1 hx with rfl
      exact (hscan_mem y hy).1
    · intro o ho
      rcases List.mem_append.1 ho with ho' | ho'
      · rcases List.mem_singleton.1 ho' with rfl
        omega
      · exact (hscan_mem o ho').2

theorem trimRightCRLF_decomp (l : ByteFile) :
    ∃ t, l = trimRightCRLF l ++ t ∧ ∀ b ∈ t, b = 13 ∨ b = 10 := by
  refine ⟨(l.reverse.takeWhile (fun b => b = 13 ∨ b = 10)).reverse, ?_, ?_⟩
  · unfold trimRightCRLF
    rw [← List.reverse_append, List.takeWhile_append_dropWhile, List.reverse_reverse]
  · intro b hb
    have hb' := List.mem_reverse.1 hb
    have := List.mem_takeWhile_imp hb'
    simpa using this

theorem lineIndexGetLine_eq_some (file : ByteFile) (offsets : List Nat)
    (hinv : InvariantHolds offsets file.length) (i : Nat)
    (hi : i < offsets.length) :
    lineIndexGetLine file offsets i
      = some (trimRightCRLF (rawLineSlice file offsets i)) := by
  obtain ⟨hpw, hlt⟩ := hinv
  have hstart_mem : offsets.getD i 0 ∈ offsets := by
    rw [List.getD_eq_getElem offsets 0 hi]
    exact List.getElem_mem hi
  have hstart_lt : offsets.getD i 0 < file.length := hlt _ hstart_mem
  unfold lineIndexGetLine readRange
  rw [if_pos hi]
  by_cases hsucc : i + 1 < offsets.length
  · have hmono : offsets.getD i 0 < offsets.getD (i + 1) 0 := by
      rw [List.getD_eq_getElem offsets 0 hi, List.getD_eq_getElem offsets 0 hsucc]
      exact (List.pairwise_iff_getElem.1 hpw) i (i + 1) hi hsucc (by omega)
    have hstop_mem : offsets.getD (i + 1) 0 ∈ offsets := by
      rw [List.getD_eq_getElem offsets 0 hsucc]
      exact List.getElem_mem hsucc
    have hstop_lt : offsets.getD (i + 1) 0 < file.length := hlt _ hstop_mem
    simp only [if_pos hsucc]
    rw [min_eq_left (by omega)]
    rw [if_neg (by omega)]
    simp [rawLineSlice, if_pos hsucc]
  · simp only [if_neg hsucc]
    rw [min_self]
    rw [if_neg (by omega)]
    simp [rawLineSlice, if_neg hsucc]

/-! ## Claims -/

/-- C10: opening a zero-byte file succeeds and presents exactly one
line: the index contains the single offset `0`, `line_count()` is `1`,
and `get_line(0)` returns empty content (Go's `nil` slice, of length
zero) with no error — the model is pure, so no error can arise, and
the Go code returns a `nil` error on this path. -/
theorem empty_file_single_empty_line :
    buildLineIndex [] = [0]
    ∧ lineCount (buildLineIndex []) = 1
    ∧ goLen (lineIndexGetLine [] (buildLineIndex []) 0) = 0 := by
  decide

/-- C3 counterexample: for the empty file the offset array is `[0]`,
and the invariant `offset[i] < size` fails there (`0 < 0` is false), so
the claim's "holds for every file, including the empty file" is
false. -/
theorem empty_file_invariant_fails :
    buildLineIndex [] = [0]
    ∧ ¬ InvariantHolds (buildLineIndex []) ([] : ByteFile).length := by
  decide

/-- C3 amended: for every NON-empty file, the built index is strictly
increasing with every offset below the file size; and `append_from`
from `oldSize` on a grown file preserves the invariant, a new line
start equal to `oldSize` (for `oldSize > 0`) appearing only when the
byte at `oldSize - 1` is `\n`.  (For the empty file the index is `[0]`
with `offset[0] = size = 0`.) -/
theorem index_invariant_build_and_append :
    (∀ file : ByteFile, file ≠ [] →
      InvariantHolds (buildLineIndex file) file.length)
    ∧ (∀ (file : ByteFile) (offsets : List Nat) (oldSize : Nat),
        oldSize < file.length →
        (InvariantHolds offsets oldSize ∨ (oldSize = 0 ∧ offsets = [0])) →
        InvariantHolds (appendNewLines file offsets oldSize) file.length
        ∧ (0 < oldSize → oldSize ∉ offsets →
            oldSize ∈ appendNewLines file offsets oldSize →
            file.getD (oldSize - 1) 0 = 10)) :=
  ⟨buildLineIndex_invariant, appendNewLines_invariant⟩

/-- C3 witness: the amended theorem applied to the concrete file
`"A\nB"` and an append of `"\nC"` to it. -/
theorem index_invariant_witness :
    InvariantHolds (buildLineIndex [65, 10, 66]) 3
    ∧ InvariantHolds (appendNewLines [65, 10, 66, 10, 67] [0, 2] 3) 5 :=
  ⟨index_invariant_build_and_append.1 [65, 10, 66] (by decide),
   (index_invariant_build_and_append.2 [65, 10, 66, 10, 67] [0, 2] 3 (by decide)
      (Or.inl (by decide))).1⟩

/-- C2 counterexample: for the file `"a\r"` (bytes `[97, 13]`), line 0
is the whole file; stripping a single trailing `\r?\n` leaves
`[97, 13]` (there is no trailing `\n`), but `GetLine` returns `[97]` —
`bytes.TrimRight(content, "\r\n")` removes EVERY trailing CR/LF byte,
not just one `\r?\n`. -/
theorem getLine_strips_more_than_one_terminator :
    lineIndexGetLine [97, 13] (buildLineIndex [97, 13]) 0 = some [97]
    ∧ stripOneCRLF (rawLineSlice [97, 13] (buildLineIndex [97, 13]) 0) = [97, 13]
    ∧ (some [97] : Option ByteFile) ≠ some [97, 13] := by
  decide

/-- C2 amended: for every non-empty file and every in-range line,
`get_line(i)` returns exactly the bytes `[offset[i], offset[i+1])` (or
`[offset[i], size)` for the last line) with ALL trailing `\r`/`\n`
bytes removed; the removed suffix consists only of CR/LF bytes, and
every byte before it is preserved. -/
theorem getLine_eq_slice_trimmed (file : ByteFile) (i : Nat)
    (hne : file ≠ []) (hi : i < (buildLineIndex file).length) :
    lineIndexGetLine file (buildLineIndex file) i
      = some (trimRightCRLF (rawLineSlice file (buildLineIndex file) i))
    ∧ ∃ t, rawLineSlice file (buildLineIndex file) i
        = trimRightCRLF (rawLineSlice file (buildLineIndex file) i) ++ t
        ∧ ∀ b ∈ t, b = 13 ∨ b = 10 :=
  ⟨lineIndexGetLine_eq_some file (buildLineIndex file)
      (buildLineIndex_invariant file hne) i hi,
   trimRightCRLF_decomp _⟩

/-- C2 witness: the amended theorem applied to the file `"a\nb"` at
line 0. -/
theorem getLine_eq_slice_trimmed_witness :
    lineIndexGetLine [97, 10, 98] (buildLineIndex [97, 10, 98]) 0
      = some (trimRightCRLF (rawLineSlice [97, 10, 98] (buildLineIndex [97, 10, 98]) 0)) :=
  (getLine_eq_slice_trimmed [97, 10, 98] 0 (by decide) (by decide)).1

theorem fsGetLine_eq_some (file : ByteFile) (hne : file ≠ []) (i : Nat)
    (hi : i < (buildLineIndex file).length) :
    fsGetLine file i
      = some (trimRightCRLF (rawLineSlice file (buildLineIndex file) i)) :=
  lineIndexGetLine_eq_some file (buildLineIndex file)
    (buildLineIndex_invariant file hne) i hi

theorem sliceOutput_eq_spec (file : ByteFile) (hne : file ≠ []) (s e : Nat)
    (he : e ≤ (buildLineIndex file).length) :
    sliceOutput file s e = sliceSpecOutput file s e := by
  unfold sliceOutput sliceSpecOutput
  congr 1
  refine List.map_congr_left ?_
  intro k hk
  have hk' : k < e - s := List.mem_range.1 hk
  have : s + k < (buildLineIndex file).length := by omega
  rw [fsGetLine_eq_some file hne (s + k) this]
  rfl

/-- C6 counterexample: over the empty file (line count 1, whose single
line is the `nil` placeholder), `slice_range(src, 0, 5)` clamps to
`(0, 1)` and succeeds, but writes an empty cache file where the claim
demands the line followed by `\n` (one LF byte). -/
theorem sliceRange_empty_file_skips_line :
    sliceRange [] "f" 0 5 = some (0, 1, "mless-slice-0-1-f", [])
    ∧ sliceSpecOutput [] 0 1 = [10]
    ∧ ([] : ByteFile) ≠ [10] := by
  decide

/-- C6 amended: for every NON-empty file, `slice_range` clamps `start`
below by 0 and `end` above by the line count, errors (returning no
result, before any cache file is created) iff the clamped start is ≥
the clamped end, and on success writes exactly the lines of the
clamped range, each followed by a single `\n`, under the name
`mless-slice-{start}-{end}-{basename}` (with the clamped bounds).  The
empty file is the one exception: its single `nil` line is skipped, so
its slice cache is empty. -/
theorem sliceRange_clamps_and_writes (file : ByteFile) (base : String)
    (startLine endLine : Int) (hne : file ≠ []) :
    (sliceRange file base startLine endLine = none
      ↔ clampEnd endLine ((buildLineIndex file).length : Int) ≤ clampStart startLine)
    ∧ (clampStart startLine < clampEnd endLine ((buildLineIndex file).length : Int) →
        sliceRange file base startLine endLine
          = some (clampStart startLine,
                  clampEnd endLine ((buildLineIndex file).length : Int),
                  cacheName (clampStart startLine)
                    (clampEnd endLine ((buildLineIndex file).length : Int)) base,
                  sliceSpecOutput file (clampStart startLine).toNat
                    (clampEnd endLine ((buildLineIndex file).length : Int)).toNat)) := by
  constructor
  · simp only [sliceRange]
    split
    · next h => simpa using h
    · next h => simp only [reduceCtorEq, false_iff]; omega
  · intro hlt
    simp only [sliceRange]
    rw [if_neg (by omega)]
    have hend : (clampEnd endLine ((buildLineIndex file).length : Int)).toNat
        ≤ (buildLineIndex file).length := by
      unfold clampEnd
      split <;> omega
    rw [sliceOutput_eq_spec file hne _ _ hend]

/-- C6 witness: the amended theorem applied to the one-byte file
`"a"` with the unclamped range `(-3, 9)`. -/
theorem sliceRange_clamps_and_writes_witness :
    sliceRange [97] "g" (-3) 9 = some (0, 1, "mless-slice-0-1-g", sliceSpecOutput [97] 0 1) := by
  have h := (sliceRange_clamps_and_writes [97] "g" (-3) 9 (by decide)).2 (by decide)
  simpa using h

/-- C1: code-bug evaluation.  Over the source lines `["a", "b"]` with
the substring filter `"b"` and an empty level set, the rebuilt forward
map is `[1]` and `GetLine(0)` yields line `"b"` with original index 1,
yet `OriginalLineNumber(0)` returns the identity `0` — the code tests
only `len(f.levelFilter) == 0` and ignores the active text filter,
contradicting both the claim and its own `GetLine`. -/
theorem originalLineNumber_ignores_text_filter :
    rebuildIndex [[97], [98]] (fun _ => LogLevel.unknown) [] [98] = [1]
    ∧ originalLineNumber [[97], [98]] (fun _ => LogLevel.unknown) [] [98] 0 = 0
    ∧ fpGetLine [[97], [98]] (fun _ => LogLevel.unknown) [] [98] 0 = some ([98], 1)
    ∧ (0 : Int) ≠ 1 := by
  decide

/-- C4: code-bug evaluation.  Over the one-line file `"hi"`, when the
parser yields no timestamp (`fun _ => none`) both the first and the
second `timestamp(0)` call invoke the parser (parse count 1 each time,
two attempts in total): the stored `nil` result is indistinguishable
from an absent entry, so the `none` outcome is never effectively
cached.  When the parse succeeds, the second call does not parse. -/
theorem getTimestamp_reparses_when_none :
    (getTimestamp (fun _ => none) [104, 105] [0] [] 0).2.2 = 1
    ∧ (getTimestamp (fun _ => none) [104, 105] [0]
        ((getTimestamp (fun _ => none) [104, 105] [0] [] 0).2.1) 0).2.2 = 1
    ∧ (getTimestamp (fun _ => some 5) [104, 105] [0] [] 0).2.1 = [some 5]
    ∧ (getTimestamp (fun _ => some 5) [104, 105] [0] [some 5] 0).2.2 = 0 := by
  decide

/-- C8 counterexample: opening the empty file already seeds the offset
`0`, so when the file grows to `"X\n"` the `append_from(0)` pass adds
NO offset (the final `\n` would start a line at position 2 = size,
which is excluded): the index stays `[0]` and the claim's "adds one
line-start offset" is false. -/
theorem followGrowth_adds_no_offset :
    buildLineIndex [] = [0]
    ∧ appendNewLines [88, 10] [0] 0 = [0]
    ∧ ¬ (appendNewLines [88, 10] [0] 0).length = (buildLineIndex []).length + 1 := by
  decide

/-- C8 amended: after the empty file grows to `"X\n"`,
`check_for_new_lines` leaves the index at the single offset `0`
(zero new lines, so the follow branch does not scroll), and the
viewport, already at the bottom (scroll offset `0` for one line and
any positive height), shows the line `"X"`. -/
theorem followGrowth_empty_file :
    checkForNewLines [88, 10] (buildLineIndex []) 0 = ([0], false)
    ∧ lineCount [0] = 1
    ∧ gotoBottomOffset 1 24 = 0
    ∧ lineIndexGetLine [88, 10] [0] 0 = some [88] := by
  decide

theorem findDashAux_spec (t done : List Nat) :
    findDashAux done.getLast? t done.length
      = (List.range' done.length t.length).find?
          (fun j => dashSepAt (done ++ t) j) := by
  induction t generalizing done with
  | nil => simp [findDashAux]
  | cons c rest ih =>
    have hgetc : (done ++ c :: rest).getD done.length 0 = c := by
      show ((done ++ c :: rest).get? done.length).getD 0 = c
      rw [List.get?_append_right (le_refl _)]
      simp
    have hcond : dashSepAt (done ++ c :: rest) done.length
        = decide (c = 45 ∧ ¬ (done.getLast? = some 36 ∨ done.getLast? = some 46)) := by
      unfold dashSepAt
      rw [hgetc]
      cases done with
      | nil => simp
      | cons d ds =>
        have hprev : ((d :: ds) ++ c :: rest).getD ((d :: ds).length - 1) 0
            = ((d :: ds).getLast?).getD 0 := by
          show (((d :: ds) ++ c :: rest).get? ((d :: ds).length - 1)).getD 0 = _
          rw [List.get?_append (by simp), List.getLast?_eq_get?]
        obtain ⟨x, hx⟩ : ∃ x, (d :: ds).getLast? = some x := by
          cases h : (d :: ds).getLast? with
          | none => simp [List.getLast?_eq_get?] at h
          | some x => exact ⟨x, rfl⟩
        rw [hx] at hprev
        simp only [hprev, hx, Option.getD_some, Option.some.injEq]
        rw [decide_eq_decide]
        constructor
        · rintro ⟨h45, hno⟩
          exact ⟨h45, fun hor => hno ⟨by simp, hor⟩⟩
        · rintro ⟨h45, hno⟩
          exact ⟨h45, fun ⟨_, hor⟩ => hno hor⟩
    simp only [findDashAux]
    simp only [List.length_cons]
    rw [List.range'_succ _ _ 1, List.find?_cons]
    by_cases h : (c = 45 ∧ ¬ (done.getLast? = some 36 ∨ done.getLast? = some 46))
    · rw [if_pos h]
      rw [hcond]
      simp [h]
    · rw [if_neg h]
      have hfalse : dashSepAt (done ++ c :: rest) done.length = false := by
        rw [hcond]
        simpa using h
      rw [hfalse]
      have h1 : (some c : Option Nat) = (done ++ [c]).getLast? :=
        (List.getLast?_concat done).symm
      have h2 : done.length + 1 = (done ++ [c]).length := by simp
      rw [h1, h2, ih (done ++ [c])]
      simp [List.append_assoc]

/-- C5: the range parser splits at the first `-` whose left neighbour
is not `$` or `.` (functionally: the separator index is the first
index satisfying that condition); with no separator the end atom
defaults to `$`; and for every current line, total line count, marks
map and time oracle, `$-1000-$` resolves after clamping to
`(total - 1000` clamped at `0, total)`. -/
theorem rangeExpr_separator_and_last1000 :
    (∀ s : List Nat,
        findDash s = (List.range s.length).find? (fun i => dashSepAt s i))
    ∧ (∀ s : List Nat, findDash s = none → splitRange s = (s, [36]))
    ∧ (∀ (marks : Nat → Option Int) (timeLookup : List Nat → Option Int)
        (current total : Int),
        parseAndSlice marks timeLookup [36, 45, 49, 48, 48, 48, 45, 36] current total
          = (if total - 1000 < 0 then 0 else total - 1000, total)) := by
  refine ⟨?_, ?_, ?_⟩
  · intro s
    have h := findDashAux_spec s []
    simpa [findDash, List.range_eq_range'] using h
  · intro s h
    unfold splitRange
    rw [h]
  · intro marks tl current total
    show (if total + -1000 < 0 then (0 : Int) else total + -1000,
          if total > total then total else total)
        = (if total - 1000 < 0 then 0 else total - 1000, total)
    rw [ite_self]
    simp [Int.sub_eq_add_neg]

/-- C5 witness: the separator-default conjunct applied to the
expression `"12"` (no dash), and `$-1000-$` at total 5000. -/
theorem rangeExpr_witness :
    splitRange [49, 50] = ([49, 50], [36])
    ∧ parseAndSlice (fun _ => none) (fun _ => none)
        [36, 45, 49, 48, 48, 48, 45, 36] 0 5000 = (4000, 5000) :=
  ⟨rangeExpr_separator_and_last1000.2.1 [49, 50] rfl,
   by rw [rangeExpr_separator_and_last1000.2.2 (fun _ => none) (fun _ => none) 0 5000]
      norm_num⟩

/-! ## Viewport lemmas -/

theorem stripEsc_skipPhase (l : List Nat) (n : Nat) (b : Bool) :
    stripEsc (skipPhase l n b) b = (stripEsc l b).drop n := by
  induction l generalizing n b with
  | nil => simp [skipPhase, stripEsc]
  | cons r rest ih =>
    by_cases h27 : r = 27
    · subst h27
      simp only [skipPhase, stripEsc, reduceIte]
      exact ih n true
    · cases b with
      | true =>
        simp only [skipPhase, stripEsc, if_neg h27, reduceIte]
        exact ih n _
      | false =>
        cases n with
        | zero =>
          simp only [skipPhase, stripEsc, if_neg h27, Nat.lt_irrefl, reduceIte,
            List.drop_zero]
          simp [stripEsc, if_neg h27, ih 0 false]
        | succ m =>
          simp only [skipPhase, stripEsc, if_neg h27, Nat.zero_lt_succ, reduceIte,
            Nat.succ_sub_one, List.drop_succ_cons]
          exact ih m false

theorem stripEsc_truncPhase (l : List Nat) (w vis : Nat) (b : Bool) :
    stripEsc (truncPhase l w vis b) b = (stripEsc l b).take (w - vis) := by
  induction l generalizing vis b with
  | nil => simp [truncPhase, stripEsc]
  | cons r rest ih =>
    by_cases h27 : r = 27
    · subst h27
      simp only [truncPhase, stripEsc, reduceIte]
      exact ih vis true
    · cases b with
      | true =>
        simp only [truncPhase, stripEsc, if_neg h27, reduceIte]
        exact ih vis _
      | false =>
        by_cases hw : w ≤ vis
        · simp only [truncPhase, stripEsc, if_neg h27, if_pos hw, reduceIte]
          rw [Nat.sub_eq_zero_of_le hw]
          simp [stripEsc]
        · simp only [truncPhase, stripEsc, if_neg h27, if_neg hw, Bool.false_eq_true,
            reduceIte]
          have hsub : w - vis = (w - (vis + 1)) + 1 := by omega
          rw [hsub, List.take_succ_cons]
          exact congrArg (List.cons r) (ih (vis + 1) false)

theorem escProj_skipPhase (l : List Nat) (n : Nat) (b : Bool) :
    escProj (skipPhase l n b) b = escProj l b := by
  induction l generalizing n b with
  | nil => simp [skipPhase, escProj]
  | cons r rest ih =>
    by_cases h27 : r = 27
    · subst h27
      simp only [skipPhase, escProj, reduceIte]
      rw [ih n true]
    · cases b with
      | true =>
        simp only [skipPhase, escProj, if_neg h27, reduceIte]
        rw [ih n _]
      | false =>
        cases n with
        | zero =>
          simp only [skipPhase, escProj, if_neg h27, Nat.lt_irrefl, reduceIte]
          simp [escProj, if_neg h27, ih 0 false]
        | succ m =>
          simp only [skipPhase, escProj, if_neg h27, Nat.zero_lt_succ, reduceIte]
          exact ih m false

theorem stripEsc_append (a c : List Nat) (s : Bool) :
    stripEsc (a ++ c) s = stripEsc a s ++ stripEsc c (escState a s) := by
  induction a generalizing s with
  | nil => simp [stripEsc, escState]
  | cons r rest ih =>
    by_cases h27 : r = 27
    · subst h27
      simp only [List.cons_append, stripEsc, escState, reduceIte]
      exact ih true
    · cases s with
      | true =>
        simp only [List.cons_append, stripEsc, escState, if_neg h27, reduceIte]
        exact ih _
      | false =>
        simp only [List.cons_append, stripEsc, escState, if_neg h27, Bool.false_eq_true,
          reduceIte, List.append_eq]
        rw [ih false]

theorem stripEsc_reset (s : Bool) : stripEsc [27, 91, 48, 109] s = [] := by
  cases s <;> decide

/-- C7 counterexample: for the content `"\x1b[31mAB"` with
`horizontal_offset = 1` and width 5, the color escape `\x1b[31m`
begins before the first retained visible column (`A` is skipped, `B`
retained) yet survives in the output — the skip loop passes every
escape byte through unconditionally ("Always keep escape sequences"),
so the claim's "dropped" is false. -/
theorem horizontalScroll_keeps_leading_escape :
    applyHorizontalScroll 1 5 [27, 91, 51, 49, 109, 65, 66]
      = [27, 91, 51, 49, 109, 66, 27, 91, 48, 109]
    ∧ applyHorizontalScroll 1 5 [27, 91, 51, 49, 109, 65, 66]
      ≠ [66, 27, 91, 48, 109] := by
  decide

/-- C7 amended: escape sequences are NEVER dropped by the horizontal
skip — every escape byte, including those before the first retained
visible column, passes through (first conjunct) — and only visible
(non-escape) bytes count toward the skipped and retained columns: the
visible projection of the output is exactly
`take width (drop horizontal_offset (visible content))` (second
conjunct). -/
theorem horizontalScroll_escape_preservation :
    (∀ (content : List Nat) (hOff : Nat) (b : Bool),
        escProj (skipPhase content hOff b) b = escProj content b)
    ∧ (∀ (content : List Nat) (hOff width : Nat), width ≠ 0 →
        stripEsc (applyHorizontalScroll hOff width content) false
          = ((stripEsc content false).drop hOff).take width) := by
  refine ⟨escProj_skipPhase, ?_⟩
  intro content hOff width hw
  unfold applyHorizontalScroll
  rw [if_neg hw, stripEsc_append, stripEsc_reset, List.append_nil,
    stripEsc_truncPhase, stripEsc_skipPhase]
  simp

/-- C7 witness: the amended theorem applied to the plain content
`"ABCDE"` with offset 1 and width 3. -/
theorem horizontalScroll_witness :
    stripEsc (applyHorizontalScroll 1 3 [65, 66, 67, 68, 69]) false = [66, 67, 68] := by
  rw [horizontalScroll_escape_preservation.2 [65, 66, 67, 68, 69] 1 3 (by decide)]
  decide

/-! ## Level-detector lemmas -/

theorem goIndexAux_spec (pat : List Nat) (t done : List Nat) :
    goIndexAux pat t done.length
      = (List.range' done.length (t.length + 1)).find?
          (fun j => pat.isPrefixOf ((done ++ t).drop j)) := by
  induction t generalizing done with
  | nil =>
    show (if pat.isPrefixOf ([] : List Nat) then some done.length else none) = _
    have hdrop : (done ++ ([] : List Nat)).drop done.length = [] := by simp
    simp only [List.length_nil, Nat.zero_add, List.range'_one]
    by_cases hp : pat.isPrefixOf ([] : List Nat) <;>
      simp [List.find?_cons, hdrop, hp]
  | cons c rest ih =>
    show (if pat.isPrefixOf (c :: rest) then some done.length
          else goIndexAux pat rest (done.length + 1)) = _
    have hdrop : (done ++ c :: rest).drop done.length = c :: rest :=
      List.drop_left done (c :: rest)
    rw [show (c :: rest).length + 1 = (rest.length + 1) + 1 from by simp]
    rw [List.range'_succ _ _ 1, List.find?_cons]
    by_cases hp : pat.isPrefixOf (c :: rest)
    · simp [hdrop, hp]
    · rw [if_neg hp]
      have hb : pat.isPrefixOf (c :: rest) = false := Bool.eq_false_iff.mpr hp
      rw [hdrop, hb]
      show goIndexAux pat rest (done.length + 1)
          = List.find? (fun j => pat.isPrefixOf ((done ++ c :: rest).drop j))
              (List.range' (done.length + 1) (rest.length + 1))
      have h2 : done.length + 1 = (done ++ [c]).length := by simp
      rw [h2, ih (done ++ [c])]
      simp [List.append_assoc]

/-- C9 counterexample: with the single bare pattern `"ERROR"`
configured for the Error level, the line `"xERROR ERROR"` has an
occurrence of `ERROR` with proper boundaries (the second one), so the
claim predicts Error; but the code checks boundaries only at the FIRST
occurrence (`strings.Index`), whose left neighbour is the letter `x`,
and detects nothing. -/
theorem detect_checks_only_first_occurrence :
    detect ⟨[], [], [], [], [[69, 82, 82, 79, 82]], []⟩
        [120, 69, 82, 82, 79, 82, 32, 69, 82, 82, 79, 82] = LogLevel.unknown
    ∧ detectSpec ⟨[], [], [], [], [[69, 82, 82, 79, 82]], []⟩
        [120, 69, 82, 82, 79, 82, 32, 69, 82, 82, 79, 82] = LogLevel.error
    ∧ LogLevel.unknown ≠ LogLevel.error := by
  decide

/-- C9 amended: level detection examines only the first 150 bytes
(first conjunct) and returns the highest-severity level among the
configured patterns that match there (second conjunct); a bracketed
pattern matches as a plain substring anywhere in that prefix (third
conjunct); `strings.Index` finds the FIRST occurrence (fourth
conjunct), and a bare pattern matches iff that first occurrence — not
some arbitrary occurrence — has a non-alphanumeric, non-underscore
character (or the string boundary) immediately before and after it
(fifth conjunct). -/
theorem detect_prefix_order_and_first_occurrence :
    (∀ (pats : LevelPatterns) (content : ByteFile),
        detect pats content = detect pats (content.take 150))
    ∧ (∀ (pats : LevelPatterns) (content : ByteFile) (L : LogLevel),
        detect pats content = L → L ≠ LogLevel.unknown →
          matchLevel pats (content.take 150) L = true
          ∧ ∀ L', L.toNat < L'.toNat → matchLevel pats (content.take 150) L' = false)
    ∧ (∀ text pat : List Nat, isBracketed pat = true →
        matchPattern text pat = decide (pat <:+: text))
    ∧ (∀ text pat : List Nat,
        goIndex text pat
          = (List.range (text.length + 1)).find? (fun j => pat.isPrefixOf (text.drop j)))
    ∧ (∀ (text pat : List Nat) (i : Nat), isBracketed pat = false →
        goIndex text pat = some i →
        matchPattern text pat = boundaryOk text pat i) := by
  refine ⟨?_, ?_, ?_, ?_, ?_⟩
  · intro pats content
    simp only [detect, List.take_take]
    norm_num
  · intro pats content L h hne
    by_cases h6 : matchLevel pats (content.take 150) LogLevel.fatal = true
    · have hL : L = LogLevel.fatal := by rw [← h]; simp [detect, h6]
      subst hL
      refine ⟨h6, ?_⟩
      intro L' hgt
      cases L' <;> simp only [LogLevel.toNat] at hgt <;> omega
    · by_cases h5 : matchLevel pats (content.take 150) LogLevel.error = true
      · have hL : L = LogLevel.error := by rw [← h]; simp [detect, h6, h5]
        subst hL
        refine ⟨h5, ?_⟩
        intro L' hgt
        cases L' <;> simp only [LogLevel.toNat] at hgt <;>
          first
            | omega
            | exact Bool.eq_false_iff.mpr h6
      · by_cases h4 : matchLevel pats (content.take 150) LogLevel.warn = true
        · have hL : L = LogLevel.warn := by rw [← h]; simp [detect, h6, h5, h4]
          subst hL
          refine ⟨h4, ?_⟩
          intro L' hgt
          cases L' <;> simp only [LogLevel.toNat] at hgt <;>
            first
              | omega
              | exact Bool.eq_false_iff.mpr h6
              | exact Bool.eq_false_iff.mpr h5
        · by_cases h3 : matchLevel pats (content.take 150) LogLevel.info = true
          · have hL : L = LogLevel.info := by rw [← h]; simp [detect, h6, h5, h4, h3]
            subst hL
            refine ⟨h3, ?_⟩
            intro L' hgt
            cases L' <;> simp only [LogLevel.toNat] at hgt <;>
              first
                | omega
                | exact Bool.eq_false_iff.mpr h6
                | exact Bool.eq_false_iff.mpr h5
                | exact Bool.eq_false_iff.mpr h4
          · by_cases h2 : matchLevel pats (content.take 150) LogLevel.debug = true
            · have hL : L = LogLevel.debug := by
                rw [← h]; simp [detect, h6, h5, h4, h3, h2]
              subst hL
              refine ⟨h2, ?_⟩
              intro L' hgt
              cases L' <;> simp only [LogLevel.toNat] at hgt <;>
                first
                  | omega
                  | exact Bool.eq_false_iff.mpr h6
                  | exact Bool.eq_false_iff.mpr h5
                  | exact Bool.eq_false_iff.mpr h4
                  | exact Bool.eq_false_iff.mpr h3
            · by_cases h1 : matchLevel pats (content.take 150) LogLevel.trace = true
              · have hL : L = LogLevel.trace := by
                  rw [← h]; simp [detect, h6, h5, h4, h3, h2, h1]
                subst hL
                refine ⟨h1, ?_⟩
                intro L' hgt
                cases L' <;> simp only [LogLevel.toNat] at hgt <;>
                  first
                    | omega
                    | exact Bool.eq_false_iff.mpr h6
                    | exact Bool.eq_false_iff.mpr h5
                    | exact Bool.eq_false_iff.mpr h4
                    | exact Bool.eq_false_iff.mpr h3
                    | exact Bool.eq_false_iff.mpr h2
              · have hL : L = LogLevel.unknown := by
                  rw [← h]; simp [detect, h6, h5, h4, h3, h2, h1]
                exact absurd hL hne
  · intro text pat hb
    unfold matchPattern
    rw [if_pos hb]
  · intro text pat
    have h := goIndexAux_spec pat text []
    simpa [goIndex, List.range_eq_range'] using h
  · intro text pat i hb hidx
    unfold matchPattern
    rw [if_neg (by simp [hb]), hidx]

/-- C9 witness: the amended theorem applied to a concrete detector
with the bracketed Error pattern `"[E]"` on the line `"[E] x"`, and
the first-occurrence conjunct at the pattern `"ER"` in the text
`"ER"`. -/
theorem detect_prefix_order_witness :
    matchLevel ⟨[], [], [], [], [[91, 69, 93]], []⟩
        (([91, 69, 93, 32, 120] : ByteFile).take 150) LogLevel.error = true
    ∧ matchPattern [69, 82] [69, 82] = boundaryOk [69, 82] [69, 82] 0 :=
  ⟨(detect_prefix_order_and_first_occurrence.2.1 ⟨[], [], [], [], [[91, 69, 93]], []⟩
      [91, 69, 93, 32, 120] LogLevel.error (by decide) (by decide)).1,
   detect_prefix_order_and_first_occurrence.2.2.2.2 [69, 82] [69, 82] 0
      (by decide) (by decide)⟩

end MLess
